import Mathlib

/-!
Shallow embedding of the beat-reactive starfield core:
the energy extractor and adaptive beat detector
(`src/lib/useFakeBeatDetection.ts`), the weighted star selector
(`src/lib/weightedSelection.ts`), and the pulsation scheduler
(`src/lib/pulsationManager.ts`).

Modelling conventions: JavaScript numbers that stay in rational arithmetic
(timestamps, energies, sizes, scales before easing) are `ℚ`; the two
transcendental operations in the source — `Math.sqrt` in the detector's
standard deviation and `Math.sin` in the pulsation easing curve — are
`Real.sqrt`/`Real.sin`, so those values live in `ℝ`.  A JavaScript `Map`
is a `List (String × _)` in insertion order with no duplicate keys
(`Map.set` of a fresh key appends; `Map.delete` removes the unique entry).
`Uint8Array` frequency snapshots are `List ℕ`.
-/

namespace Starfield

/-! ### Energy extractor (`calculateEnergy` in `useFakeBeatDetection.ts`) -/

/-- `calculateEnergy(frequencyData)`: 0 on empty input, otherwise the mean of
the first `min(11, length)` samples (the bass band) divided by 255. -/
def calculateEnergy (frequencyData : List ℕ) : ℚ :=
  if frequencyData.length = 0 then 0
  else
    let bassRange : ℕ := min 11 frequencyData.length
    let sum : ℚ := ((frequencyData.take bassRange).map (fun x : ℕ => (x : ℚ))).foldl (· + ·) 0
    let averageEnergy : ℚ := sum / (bassRange : ℚ)
    averageEnergy / 255

/-! ### Beat detector state (`BeatDetectionState` / `BeatDetector`) -/

/-- The `BeatDetectionState` record.  `varianceEnergy` is the standard
deviation (the source stores `Math.sqrt(varianceSum / len)`), hence `ℝ`. -/
structure BeatState where
  energyHistory : List ℚ
  lastBeatTime : ℚ
  averageEnergy : ℚ
  varianceEnergy : ℝ

/-- The detector's initial state, also produced by `reset()`:
empty history, `lastBeatTime = 0`, zero statistics. -/
def resetState : BeatState := BeatState.mk [] 0 0 0

/-- Mean of a list of energies, written the way the spec words it
(sum over length; 0 for the empty list since `0 / 0 = 0` in `ℚ`). -/
def listMean (l : List ℚ) : ℚ := l.sum / (l.length : ℚ)

/-- Standard deviation of a list of energies as the spec words it:
square root of the mean squared deviation from the mean. -/
noncomputable def listStddev (l : List ℚ) : ℝ :=
  Real.sqrt (((((l.map (fun x => (x - listMean l) ^ 2)).sum / (l.length : ℚ)) : ℚ) : ℝ))

/-- `BeatDetector.updateHistory(energy)`: push the energy, shift the oldest
entry out when the length exceeds `historySize`, then recompute the average
and the standard deviation from the current history by folding over it,
exactly as the two `for` loops in the source do. -/
noncomputable def updateHistory (historySize : ℕ) (st : BeatState) (energy : ℚ) : BeatState :=
  let history0 := st.energyHistory ++ [energy]
  let history := if historySize < history0.length then history0.tail else history0
  let len : ℚ := (history.length : ℚ)
  let sum : ℚ := history.foldl (· + ·) 0
  let avg : ℚ := sum / len
  let varianceSum : ℚ := history.foldl (fun acc x => acc + (x - avg) * (x - avg)) 0
  BeatState.mk history st.lastBeatTime avg (Real.sqrt (((varianceSum / len : ℚ) : ℝ)))

open Classical in
/-- `BeatDetector.detectBeat(frequencyData, timestamp)`: compute the energy,
update the history, debounce, then classify against the dynamic threshold
`averageEnergy * thresholdMultiplier + varianceEnergy * 0.5`.  Returns the
optional beat strength together with the post-call state. -/
noncomputable def detectBeat (historySize : ℕ) (thresholdMultiplier debounceMs : ℚ)
    (st : BeatState) (frequencyData : List ℕ) (timestamp : ℚ) : Option ℝ × BeatState :=
  let energy := calculateEnergy frequencyData
  let st1 := updateHistory historySize st energy
  if timestamp - st1.lastBeatTime < debounceMs then (none, st1)
  else
    let threshold : ℝ :=
      (st1.averageEnergy : ℝ) * (thresholdMultiplier : ℝ) + st1.varianceEnergy * (1 / 2)
    if (energy : ℝ) > threshold ∧ 0 < st1.averageEnergy then
      (some (min 1 (((energy : ℝ) - threshold) / threshold)),
       BeatState.mk st1.energyHistory timestamp st1.averageEnergy st1.varianceEnergy)
    else (none, st1)

/-- Run a sequence of `detectBeat` calls (no intervening reset), pairing each
call's optional strength with the timestamp it was called at. -/
noncomputable def runDetector (historySize : ℕ) (thresholdMultiplier debounceMs : ℚ) :
    BeatState → List (List ℕ × ℚ) → List (Option ℝ × ℚ)
  | _, [] => []
  | st, (freq, t) :: rest =>
    let r := detectBeat historySize thresholdMultiplier debounceMs st freq t
    (r.1, t) :: runDetector historySize thresholdMultiplier debounceMs r.2 rest

/-! ### Pulsation scheduler (`PulsationManager` in `pulsationManager.ts`) -/

/-- The `PulsationState` record for one particle. -/
structure PulsationState where
  particleId : String
  startTime : ℚ
  duration : ℚ
  peakScale : ℚ
  originalSize : ℚ
deriving DecidableEq

/-- The scheduler's entry map: `Map<string, PulsationState>` as an
insertion-ordered association list. -/
abbrev PulsationMap := List (String × PulsationState)

/-- The `for (const [id, state] of this.pulsations.entries())` scan inside
`startPulsation`: starting from `oldestTime = Infinity, oldestId = ''`,
track the entry with the smallest `startTime`.  `none` plays the role of
`Infinity` (every finite timestamp compares below it). -/
def oldestScan (m : PulsationMap) : Option ℚ × String :=
  m.foldl
    (fun acc e =>
      match acc.1 with
      | none => (some e.2.startTime, e.1)
      | some t => if e.2.startTime < t then (some e.2.startTime, e.1) else acc)
    (none, "")

/-- `PulsationManager.startPulsation(particleId, beatStrength, originalSize,
currentTime)`: no-op when the id is already active; otherwise clamp the
strength, derive `peakScale = 1.5 + 0.5 * strength` and
`duration = 200 + 200 * strength`, evict the scanned oldest entry when the
map is at or above the cap — but, as in the source, only when the scanned
id is truthy (a nonempty string) — and insert the new entry. -/
def startPulsation (maxConcurrentPulsations : ℕ) (m : PulsationMap)
    (particleId : String) (beatStrength originalSize currentTime : ℚ) : PulsationMap :=
  if (m.lookup particleId).isSome then m
  else
    let clampedBeatStrength := max 0 (min 1 beatStrength)
    let peakScale := 3 / 2 + clampedBeatStrength * (1 / 2)
    let duration := 200 + clampedBeatStrength * 200
    (if maxConcurrentPulsations ≤ m.length then
      if (oldestScan m).2 ≠ "" then m.eraseP (fun e => e.1 = (oldestScan m).2) else m
    else m) ++
      [(particleId, PulsationState.mk particleId currentTime duration peakScale originalSize)]

/-- `PulsationManager.calculateScale(progress, peakScale)`:
`1 + (peakScale - 1) * sin(progress * π)`. -/
noncomputable def calculateScale (progress peakScale : ℚ) : ℝ :=
  1 + ((peakScale : ℝ) - 1) * Real.sin ((progress : ℝ) * Real.pi)

/-- `PulsationManager.updatePulsations(currentTime)`: for each active entry
skip it when `elapsed < 0` or `elapsed ≥ duration`, otherwise emit
`calculateScale (elapsed / duration) peakScale` under the particle's id. -/
noncomputable def updatePulsations (m : PulsationMap) (currentTime : ℚ) :
    List (String × ℝ) :=
  m.filterMap (fun e =>
    let elapsed := currentTime - e.2.startTime
    if elapsed < 0 then none
    else if e.2.duration ≤ elapsed then none
    else some (e.1, calculateScale (elapsed / e.2.duration) e.2.peakScale))

/-- `PulsationManager.cleanup(currentTime)`: delete every entry whose
elapsed time has reached its duration. -/
def cleanup (m : PulsationMap) (currentTime : ℚ) : PulsationMap :=
  m.filter (fun e => ¬ e.2.duration ≤ currentTime - e.2.startTime)

/-- `PulsationManager.reset()`: clear all entries. -/
def resetManager : PulsationMap := []

/-- Scheduler states reachable through the public mutating operations from a
fresh manager (`new PulsationManager(cap)` starts empty). -/
inductive Reachable (cap : ℕ) : PulsationMap → Prop
  | init : Reachable cap []
  | start (m : PulsationMap) (pid : String) (bs os now : ℚ) :
      Reachable cap m → Reachable cap (startPulsation cap m pid bs os now)
  | clean (m : PulsationMap) (now : ℚ) :
      Reachable cap m → Reachable cap (cleanup m now)

/-! ### Weighted star selection (`weightedSelection.ts`) -/

/-- The `Particle` interface: an id and a size. -/
structure Particle where
  id : String
  size : ℚ
deriving DecidableEq

/-- The `StarSelectionConfig` interface.  The size-weight exponent is a
nonnegative integer here (the source's `Math.pow` with the default 2). -/
structure StarSelectionConfig where
  minSelectionPercent : ℚ
  maxSelectionPercent : ℚ
  sizeWeightExponent : ℕ
deriving DecidableEq

/-- `DEFAULT_SELECTION_CONFIG`: 5%–15% selection, quadratic weighting. -/
def DEFAULT_SELECTION_CONFIG : StarSelectionConfig :=
  StarSelectionConfig.mk (1 / 20) (3 / 20) 2

/-- `calculateWeight(particle, exponent)`: 0 for nonpositive sizes,
otherwise `size ^ exponent`. -/
def calculateWeight (particle : Particle) (exponent : ℕ) : ℚ :=
  if particle.size ≤ 0 then 0 else particle.size ^ exponent

/-- The inner cumulative-weight scan of `selectStars`: find the first index
whose cumulative weight strictly exceeds the random value.  Returns `none`
when the loop finishes without a break (JS then leaves `selectedIndex = 0`). -/
def pickIndexAux (randomValue : ℚ) : List ℚ → ℕ → ℚ → Option ℕ
  | [], _, _ => none
  | w :: ws, j, cum =>
    if randomValue < cum + w then some j else pickIndexAux randomValue ws (j + 1) (cum + w)

/-- The selected index for one draw: the scan's break index, or 0. -/
def pickIndex (weights : List ℚ) (randomValue : ℚ) : ℕ :=
  (pickIndexAux randomValue weights 0 0).getD 0

/-- The sampling-without-replacement loop of `selectStars`: while draws
remain and the pool is nonempty, draw `rand i * currentTotalWeight`, pick
the corresponding index, move that particle to the output and splice it
(and its weight) out of the pool.  `rand` is the stream of `Math.random()`
outcomes, one per iteration. -/
def sampleLoop (rand : ℕ → ℚ) : ℕ → ℕ → List Particle → List ℚ → List Particle
  | _, 0, _, _ => []
  | _, _ + 1, [], _ => []
  | i, k + 1, a :: avail, ws =>
    let currentTotalWeight := ws.foldl (· + ·) 0
    let randomValue := rand i * currentTotalWeight
    let idx := pickIndex ws randomValue
    (a :: avail).getD idx a ::
      sampleLoop rand (i + 1) k ((a :: avail).eraseIdx idx) (ws.eraseIdx idx)

/-- `selectUniformRandom(particles, count)`: shuffle and take
`min count particles.length`.  The shuffle (the source's
`sort(() => Math.random() - 0.5)`) is an externally supplied permutation. -/
def selectUniformRandom (particles : List Particle) (count : ℕ)
    (shuffle : List Particle → List Particle) : List Particle :=
  (shuffle particles).take (min count particles.length)

/-- `selectStars(particles, beatStrength, config)`: clamp the strength,
interpolate the selection fraction, take `max(1, floor(n * fraction))`
draws, and sample without replacement by weight (uniform fallback when the
total weight is 0).  `rand` and `shuffle` stand for the random source. -/
def selectStars (particles : List Particle) (beatStrength : ℚ)
    (config : StarSelectionConfig) (rand : ℕ → ℚ)
    (shuffle : List Particle → List Particle) : List Particle :=
  if particles.length = 0 then []
  else
    let clampedBeatStrength := max 0 (min 1 beatStrength)
    let selectionPercent := config.minSelectionPercent +
      (config.maxSelectionPercent - config.minSelectionPercent) * clampedBeatStrength
    let selectionCount : ℕ :=
      (max 1 ⌊(particles.length : ℚ) * selectionPercent⌋).toNat
    let weights := particles.map (fun p => calculateWeight p config.sizeWeightExponent)
    let totalWeight := weights.foldl (· + ·) 0
    if totalWeight = 0 then selectUniformRandom particles selectionCount shuffle
    else sampleLoop rand 0 selectionCount particles weights

/-! ### Helper lemmas -/

theorem foldl_add_eq_sum (l : List ℚ) (a : ℚ) : l.foldl (· + ·) a = a + l.sum := by
  induction l generalizing a with
  | nil => simp
  | cons x xs ih => simp [List.foldl_cons, ih (a + x), add_assoc]

theorem foldl_add_map_eq_sum (f : ℚ → ℚ) (l : List ℚ) (a : ℚ) :
    l.foldl (fun acc x => acc + f x) a = a + (l.map f).sum := by
  induction l generalizing a with
  | nil => simp
  | cons x xs ih => simp [List.foldl_cons, ih (a + f x), add_assoc]

theorem calculateEnergy_nonneg (l : List ℕ) : 0 ≤ calculateEnergy l := by
  unfold calculateEnergy
  split
  · exact le_refl 0
  · refine div_nonneg (div_nonneg ?_ (by positivity)) (by norm_num)
    rw [foldl_add_eq_sum, zero_add]
    exact List.sum_nonneg (by
      intro x hx
      obtain ⟨y, _, rfl⟩ := List.mem_map.mp hx
      positivity)

/-- C8: `calculateEnergy` returns 0 on the empty snapshot, otherwise the mean
of the first `min(11, length)` samples divided by 255; it is nonnegative,
at most 1 when samples are in `0..255`, 0 on all-zero input and 1 on
all-255 input.  (Being a plain function of its argument, it has no side
effects.) -/
theorem calculateEnergy_spec (l : List ℕ) :
    calculateEnergy [] = 0 ∧
    (l ≠ [] → calculateEnergy l =
      ((l.take (min 11 l.length)).map (fun x : ℕ => (x : ℚ))).sum /
        ((min 11 l.length : ℕ) : ℚ) / 255) ∧
    0 ≤ calculateEnergy l ∧
    ((∀ x ∈ l, x ≤ 255) → calculateEnergy l ≤ 1) ∧
    ((∀ x ∈ l, x = 0) → calculateEnergy l = 0) ∧
    (l ≠ [] → (∀ x ∈ l, x = 255) → calculateEnergy l = 1) := by
  have hformula : l ≠ [] → calculateEnergy l =
      ((l.take (min 11 l.length)).map (fun x : ℕ => (x : ℚ))).sum /
        ((min 11 l.length : ℕ) : ℚ) / 255 := by
    intro hne
    unfold calculateEnergy
    rw [if_neg (by simpa using hne)]
    simp only [foldl_add_eq_sum, zero_add]
  have hlen : l ≠ [] → 0 < min 11 l.length := by
    intro hne
    have : 0 < l.length := List.length_pos.mpr hne
    omega
  refine ⟨rfl, hformula, calculateEnergy_nonneg l, ?_, ?_, ?_⟩
  · -- bounded above by 1 when every sample is ≤ 255
    intro hb
    rcases eq_or_ne l [] with rfl | hne
    · simp [calculateEnergy]
    · rw [hformula hne]
      set t := l.take (min 11 l.length) with ht
      have hsum : (t.map (fun x : ℕ => (x : ℚ))).sum ≤
          ((t.map (fun x : ℕ => (x : ℚ))).length : ℕ) • (255 : ℚ) := by
        refine List.sum_le_card_nsmul _ 255 ?_
        intro x hx
        obtain ⟨y, hy, rfl⟩ := List.mem_map.mp hx
        have : y ≤ 255 := hb y (List.mem_of_mem_take hy)
        exact_mod_cast this
      have hlt : (t.map (fun x : ℕ => (x : ℚ))).length = min 11 l.length := by
        simp [ht, List.length_take]
      have hpos : (0 : ℚ) < ((min 11 l.length : ℕ) : ℚ) := by
        exact_mod_cast hlen hne
      rw [div_le_one (by norm_num : (0:ℚ) < 255)]
      rw [div_le_iff₀ hpos]
      calc (t.map (fun x : ℕ => (x : ℚ))).sum
          ≤ ((t.map (fun x : ℕ => (x : ℚ))).length : ℕ) • (255 : ℚ) := hsum
        _ = 255 * ((min 11 l.length : ℕ) : ℚ) := by
            rw [hlt]; rw [nsmul_eq_mul]; ring
  · -- all-zero input gives 0
    intro hz
    rcases eq_or_ne l [] with rfl | hne
    · simp [calculateEnergy]
    · rw [hformula hne]
      have : (l.take (min 11 l.length)).map (fun x : ℕ => (x : ℚ)) =
          List.replicate ((l.take (min 11 l.length)).length) 0 := by
        apply List.eq_replicate_iff.mpr
        refine ⟨by simp, ?_⟩
        intro x hx
        obtain ⟨y, hy, rfl⟩ := List.mem_map.mp hx
        have : y = 0 := hz y (List.mem_of_mem_take hy)
        simp [this]
      rw [this]
      simp
  · -- all-255 input gives 1
    intro hne h255
    rw [hformula hne]
    have hsum : (((l.take (min 11 l.length)).map (fun x : ℕ => (x : ℚ)))).sum =
        (((l.take (min 11 l.length)).map (fun x : ℕ => (x : ℚ))).length : ℕ) • (255 : ℚ) := by
      refine List.sum_eq_card_nsmul _ 255 ?_
      intro x hx
      obtain ⟨y, hy, rfl⟩ := List.mem_map.mp hx
      have : y = 255 := h255 y (List.mem_of_mem_take hy)
      simp [this]
    have hlt : ((l.take (min 11 l.length)).map (fun x : ℕ => (x : ℚ))).length
        = min 11 l.length := by
      simp [List.length_take]
    have hpos : (0 : ℚ) < ((min 11 l.length : ℕ) : ℚ) := by
      exact_mod_cast hlen hne
    rw [hsum, hlt, nsmul_eq_mul, mul_comm, mul_div_assoc,
      div_self (ne_of_gt hpos), mul_one]
    norm_num

/-- Witness for C8 at the concrete snapshot `[255, 255]`. -/
theorem calculateEnergy_spec_witness : calculateEnergy [255, 255] = 1 :=
  (calculateEnergy_spec [255, 255]).2.2.2.2.2 (by simp) (by decide)

/-- C1: counter-evidence.  The eviction path of `startPulsation` guards the
delete with a truthiness test on the scanned id (`if (oldestId)` in the
source).  When the oldest active entry's particle id is the empty string,
the guard is falsy, nothing is evicted, and inserting the new entry leaves
`maxConcurrentPulsations + 1` active entries with the originally-oldest
entry still active — contradicting the claimed eviction behaviour and the
function's own documentation.  Here: cap 1, entry `""` started at 0, then
a start for the fresh id `"x"` at time 5 yields two active entries. -/
theorem startPulsation_empty_id_defeats_cap :
    (startPulsation 1 (startPulsation 1 [] "" 1 1 0) "x" 1 1 5).length = 2 ∧
    ((startPulsation 1 (startPulsation 1 [] "" 1 1 0) "x" 1 1 5).lookup "").isSome = true := by
  constructor
  · decide
  · decide

theorem updateHistory_lastBeatTime (H : ℕ) (st : BeatState) (e : ℚ) :
    (updateHistory H st e).lastBeatTime = st.lastBeatTime := by
  unfold updateHistory
  rfl

theorem updateHistory_reset_zero (e : ℚ) :
    updateHistory 0 resetState e = BeatState.mk [] 0 0 0 := by
  unfold updateHistory resetState
  norm_num [Real.sqrt_zero]

theorem updateHistory_reset_pos (H : ℕ) (e : ℚ) (hH : H ≠ 0) :
    updateHistory H resetState e = BeatState.mk [e] 0 e 0 := by
  unfold updateHistory resetState
  have h1 : ¬ (H < 1) := by omega
  simp only [List.nil_append, List.length_cons, List.length_nil, h1, if_neg h1]
  norm_num [Real.sqrt_zero]

/-- C2: a freshly constructed (or freshly reset) detector never emits a beat
on its first `detectBeat` call, whatever the snapshot and timestamp.  This
relies on the threshold multiplier being at least 1, which holds for the
source's default 1.3 and the in-repo `beatThreshold` configuration. -/
theorem detectBeat_cold_start (H : ℕ) (tm d : ℚ) (freq : List ℕ) (t : ℚ)
    (htm : 1 ≤ tm) :
    (detectBeat H tm d resetState freq t).1 = none := by
  have he : 0 ≤ calculateEnergy freq := calculateEnergy_nonneg freq
  unfold detectBeat
  rcases eq_or_ne H 0 with rfl | hH
  · simp only [updateHistory_reset_zero]
    split_ifs with hd hbeat
    · rfl
    · exact absurd hbeat.2 (lt_irrefl 0)
    · rfl
  · simp only [updateHistory_reset_pos H _ hH]
    split_ifs with hd hbeat
    · rfl
    · exfalso
      have hgt : (calculateEnergy freq : ℝ) >
          (calculateEnergy freq : ℝ) * (tm : ℝ) + 0 * (1 / 2) := hbeat.1
      have hpos : (0 : ℚ) < calculateEnergy freq := hbeat.2
      have he' : (0 : ℝ) ≤ (calculateEnergy freq : ℝ) := by exact_mod_cast he
      have htm' : (1 : ℝ) ≤ (tm : ℝ) := by exact_mod_cast htm
      have hle : (calculateEnergy freq : ℝ) * 1 ≤ (calculateEnergy freq : ℝ) * (tm : ℝ) :=
        mul_le_mul_of_nonneg_left htm' he'
      simp only [mul_one] at hle
      simp only [gt_iff_lt, zero_mul, add_zero] at hgt
      linarith
    · rfl

/-- Witness for C2 at a concrete snapshot, timestamp past the debounce
window, and the default configuration. -/
theorem detectBeat_cold_start_witness :
    (detectBeat 60 (13 / 10) 100 resetState [255] 500).1 = none :=
  detectBeat_cold_start 60 (13 / 10) 100 [255] 500 (by norm_num)

theorem lookup_isSome_iff {β : Type} (a : String) :
    ∀ l : List (String × β), (l.lookup a).isSome ↔ a ∈ l.map Prod.fst
  | [] => by simp [List.lookup]
  | (k, v) :: es => by
    have ih := lookup_isSome_iff a es
    by_cases h : a = k
    · subst h
      simp [List.lookup]
    · have hbeq : (a == k) = false := beq_eq_false_iff_ne.mpr h
      simp only [List.lookup, hbeq, List.map_cons, List.mem_cons]
      rw [ih]
      simp [h]

/-- C6: starting a pulsation for an id that is already active leaves the
scheduler state unchanged (so the existing entry keeps its start time,
duration, peak scale and original size), and `startPulsation` preserves
key uniqueness, so at most one `PulsationState` exists per id. -/
theorem startPulsation_existing_id_noop (cap : ℕ) (m : PulsationMap)
    (pid : String) (bs os now : ℚ) :
    ((m.lookup pid).isSome → startPulsation cap m pid bs os now = m) ∧
    ((m.map Prod.fst).Nodup → ((startPulsation cap m pid bs os now).map Prod.fst).Nodup) := by
  constructor
  · intro h
    unfold startPulsation
    rw [if_pos h]
  · intro hnd
    unfold startPulsation
    by_cases h : (m.lookup pid).isSome
    · rw [if_pos h]
      exact hnd
    · rw [if_neg h]
      have hpid : pid ∉ m.map Prod.fst := by
        intro hc
        exact h ((lookup_isSome_iff pid m).mpr hc)
      have main : ∀ (m1 : PulsationMap) (st : PulsationState), m1.Sublist m →
          ((m1 ++ [(pid, st)]).map Prod.fst).Nodup := by
        intro m1 st hsub
        have hkeys : (m1.map Prod.fst).Sublist (m.map Prod.fst) := hsub.map Prod.fst
        have hnd1 : (m1.map Prod.fst).Nodup := hnd.sublist hkeys
        have hpid1 : pid ∉ m1.map Prod.fst := fun hc => hpid (hkeys.subset hc)
        rw [List.map_append]
        simp [List.nodup_append, hnd1, hpid1]
      refine main _ _ ?_
      split_ifs with hcap hid
      · exact List.eraseP_sublist m
      · exact List.Sublist.refl m
      · exact List.Sublist.refl m

/-- Witness for C6: restarting the already-active id `"a"` later and with a
different strength and size leaves the single entry untouched. -/
theorem startPulsation_existing_id_noop_witness :
    startPulsation 30 [("a", PulsationState.mk "a" 0 400 2 3)] "a" (1 / 2) 9 100 =
      [("a", PulsationState.mk "a" 0 400 2 3)] :=
  (startPulsation_existing_id_noop 30 [("a", PulsationState.mk "a" 0 400 2 3)]
    "a" (1 / 2) 9 100).1 (by rfl)

theorem lookup_eq_none_of_not_mem {β : Type} (a : String) (l : List (String × β))
    (h : a ∉ l.map Prod.fst) : l.lookup a = none := by
  by_contra hne
  have : (l.lookup a).isSome := Option.ne_none_iff_isSome.mp hne
  exact h ((lookup_isSome_iff a l).mp this)

theorem updatePulsations_keys_subset (m : PulsationMap) (now : ℚ) :
    ∀ x ∈ (updatePulsations m now).map Prod.fst, x ∈ m.map Prod.fst := by
  intro x hx
  obtain ⟨⟨i, v⟩, hiv, rfl⟩ := List.mem_map.mp hx
  obtain ⟨e, he, hfe⟩ := List.mem_filterMap.mp hiv
  have hfst : e.1 = i := by
    by_cases h1 : now - e.2.startTime < 0
    · simp [h1] at hfe
    · by_cases h2 : e.2.duration ≤ now - e.2.startTime
      · simp [h1, h2] at hfe
      · simp only [h1, h2, if_false, if_neg h1, if_neg h2, Option.some.injEq] at hfe
        exact congrArg Prod.fst hfe
  exact hfst ▸ List.mem_map_of_mem Prod.fst he

theorem updatePulsations_lookup (m : PulsationMap) (now : ℚ) (pid : String)
    (st : PulsationState) (hnd : (m.map Prod.fst).Nodup) (hmem : (pid, st) ∈ m) :
    (updatePulsations m now).lookup pid =
      if now - st.startTime < 0 ∨ st.duration ≤ now - st.startTime then none
      else some (calculateScale ((now - st.startTime) / st.duration) st.peakScale) := by
  induction m with
  | nil => simp at hmem
  | cons e rest ih =>
    obtain ⟨q, s0⟩ := e
    have hndtail : (rest.map Prod.fst).Nodup := (List.nodup_cons.mp hnd).2
    have hqnot : q ∉ rest.map Prod.fst := (List.nodup_cons.mp hnd).1
    by_cases hpq : pid = q
    · subst hpq
      have hst : st = s0 := by
        rcases List.mem_cons.mp hmem with heq | htail
        · exact congrArg Prod.snd heq
        · exact absurd (List.mem_map_of_mem Prod.fst htail) hqnot
      subst hst
      have hnotrest : pid ∉ (updatePulsations rest now).map Prod.fst :=
        fun hc => hqnot (updatePulsations_keys_subset rest now pid hc)
      have hlrest : (updatePulsations rest now).lookup pid = none :=
        lookup_eq_none_of_not_mem pid _ hnotrest
      by_cases h1 : now - st.startTime < 0
      · rw [if_pos (Or.inl h1)]
        simp only [updatePulsations, List.filterMap_cons, if_pos h1]
        exact hlrest
      · by_cases h2 : st.duration ≤ now - st.startTime
        · rw [if_pos (Or.inr h2)]
          simp only [updatePulsations, List.filterMap_cons, if_neg h1, if_pos h2]
          exact hlrest
        · rw [if_neg (by push_neg; exact ⟨not_lt.mp h1, lt_of_not_le h2⟩ : _)]
          simp only [updatePulsations, List.filterMap_cons, if_neg h1, if_neg h2]
          simp [List.lookup]
    · have hmem' : (pid, st) ∈ rest := by
        rcases List.mem_cons.mp hmem with heq | htail
        · exact absurd (congrArg Prod.fst heq) hpq
        · exact htail
      have ihr := ih hndtail hmem'
      have hbeq : (pid == q) = false := beq_eq_false_iff_ne.mpr hpq
      by_cases h1 : now - s0.startTime < 0
      · simp only [updatePulsations, List.filterMap_cons, if_pos h1]
        exact ihr
      · by_cases h2 : s0.duration ≤ now - s0.startTime
        · simp only [updatePulsations, List.filterMap_cons, if_neg h1, if_pos h2]
          exact ihr
        · simp only [updatePulsations, List.filterMap_cons, if_neg h1, if_neg h2]
          rw [List.lookup]
          simp only [hbeq]
          exact ihr

/-- C4: for an active entry with start `s`, duration `d`, peak `p`, a call
`updatePulsations now` with `elapsed = now - s` omits the id when
`elapsed < 0` or `elapsed ≥ d`, and otherwise maps it to
`1 + (p - 1) * sin((elapsed / d) * π)`; in particular the scale is `1` at
`elapsed = 0` and `p` at `elapsed = d / 2`. -/
theorem updatePulsations_scale_spec (m : PulsationMap) (now : ℚ) (pid : String)
    (st : PulsationState) (hnd : (m.map Prod.fst).Nodup) (hmem : (pid, st) ∈ m) :
    (now - st.startTime < 0 → (updatePulsations m now).lookup pid = none) ∧
    (st.duration ≤ now - st.startTime → (updatePulsations m now).lookup pid = none) ∧
    (0 ≤ now - st.startTime → now - st.startTime < st.duration →
      ((updatePulsations m now).lookup pid =
        some (1 + ((st.peakScale : ℝ) - 1) *
          Real.sin ((((now - st.startTime) / st.duration : ℚ) : ℝ) * Real.pi)) ∧
       (now - st.startTime = 0 → (updatePulsations m now).lookup pid = some 1) ∧
       (now - st.startTime = st.duration / 2 →
         (updatePulsations m now).lookup pid = some ((st.peakScale : ℝ))))) := by
  have hl := updatePulsations_lookup m now pid st hnd hmem
  refine ⟨?_, ?_, ?_⟩
  · intro h1
    rw [hl, if_pos (Or.inl h1)]
  · intro h2
    rw [hl, if_pos (Or.inr h2)]
  · intro hge hlt
    have hcond : ¬(now - st.startTime < 0 ∨ st.duration ≤ now - st.startTime) := by
      push_neg
      exact ⟨hge, hlt⟩
    have hdpos : 0 < st.duration := lt_of_le_of_lt hge hlt
    refine ⟨by rw [hl, if_neg hcond]; rfl, ?_, ?_⟩
    · intro h0
      rw [hl, if_neg hcond, h0]
      simp [calculateScale, zero_div, Real.sin_zero]
    · intro hhalf
      have hdne : st.duration ≠ 0 := ne_of_gt hdpos
      have hprog : st.duration / 2 / st.duration = (1 / 2 : ℚ) := by
        field_simp
        ring
      have harg : (((1 / 2 : ℚ) : ℝ)) * Real.pi = Real.pi / 2 := by
        push_cast
        ring
      rw [hl, if_neg hcond, hhalf, hprog]
      simp only [calculateScale, harg, Real.sin_pi_div_two, mul_one]
      congr 1
      ring

/-- Witness for C4 at the concrete entry `"a"` (start 0, duration 400,
peak 2) and `now = 300`. -/
theorem updatePulsations_scale_spec_witness :
    (updatePulsations [("a", PulsationState.mk "a" 0 400 2 3)] 300).lookup "a" =
      some (1 + ((2 : ℝ) - 1) * Real.sin ((((300 - 0) / 400 : ℚ) : ℝ) * Real.pi)) :=
  ((updatePulsations_scale_spec [("a", PulsationState.mk "a" 0 400 2 3)] 300 "a"
    (PulsationState.mk "a" 0 400 2 3) (by simp) (by simp)).2.2
    (by norm_num) (by norm_num)).1

/-- Entry invariant maintained by the scheduler: every active entry's peak
scale is in `[1.5, 2]` and its duration is positive (the source derives
them from a clamped beat strength). -/
def pulsationEntriesWF (m : PulsationMap) : Prop :=
  ∀ e ∈ m, 3 / 2 ≤ e.2.peakScale ∧ e.2.peakScale ≤ 2 ∧ 0 < e.2.duration

theorem pulsationEntriesWF_start (cap : ℕ) (m : PulsationMap)
    (pid : String) (bs os now : ℚ) (hwf : pulsationEntriesWF m) :
    pulsationEntriesWF (startPulsation cap m pid bs os now) := by
  unfold startPulsation
  by_cases h : (m.lookup pid).isSome
  · rw [if_pos h]
    exact hwf
  · rw [if_neg h]
    intro e he
    have hclamp0 : 0 ≤ max 0 (min 1 bs) := le_max_left 0 _
    have hclamp1 : max 0 (min 1 bs) ≤ 1 :=
      max_le (by norm_num) (min_le_left 1 bs)
    rcases List.mem_append.mp he with hin | hnew
    · have hsubm : e ∈ m := by
        revert hin
        split_ifs with hcap hid
        · exact fun hin => (List.eraseP_sublist m).subset hin
        · exact fun hin => hin
        · exact fun hin => hin
      exact hwf e hsubm
    · have he' : e = (pid, PulsationState.mk pid now (200 + max 0 (min 1 bs) * 200)
          (3 / 2 + max 0 (min 1 bs) * (1 / 2)) os) := by
        simpa using hnew
      subst he'
      refine ⟨by nlinarith, by nlinarith, by nlinarith⟩

theorem pulsationEntriesWF_cleanup (m : PulsationMap) (now : ℚ)
    (hwf : pulsationEntriesWF m) : pulsationEntriesWF (cleanup m now) :=
  fun e he => hwf e (List.mem_of_mem_filter he)

theorem pulsationEntriesWF_reachable (cap : ℕ) (m : PulsationMap)
    (hr : Reachable cap m) : pulsationEntriesWF m := by
  induction hr with
  | init => intro e he; simp at he
  | start m pid bs os now _ ih => exact pulsationEntriesWF_start cap m pid bs os now ih
  | clean m now _ ih => exact pulsationEntriesWF_cleanup m now ih

/-- C10: in every scheduler state reachable from a fresh manager, stored
peak scales lie in `[1.5, 2]`, and every scale returned by
`updatePulsations` lies in `[1, 2]` — a pulsation never shrinks a particle
and never exceeds twice its size. -/
theorem updatePulsations_scale_bounds (cap : ℕ) (m : PulsationMap) (now : ℚ)
    (hr : Reachable cap m) :
    (∀ e ∈ m, 3 / 2 ≤ e.2.peakScale ∧ e.2.peakScale ≤ 2) ∧
    (∀ p ∈ updatePulsations m now, (1 : ℝ) ≤ p.2 ∧ p.2 ≤ 2) := by
  have hwf := pulsationEntriesWF_reachable cap m hr
  constructor
  · intro e he
    exact ⟨(hwf e he).1, (hwf e he).2.1⟩
  · intro p hp
    obtain ⟨e, he, hfe⟩ := List.mem_filterMap.mp hp
    obtain ⟨hpk1, hpk2, hdpos⟩ := hwf e he
    by_cases h1 : now - e.2.startTime < 0
    · simp [h1] at hfe
    · by_cases h2 : e.2.duration ≤ now - e.2.startTime
      · simp [h1, h2] at hfe
      · simp only [if_neg h1, if_neg h2, Option.some.injEq] at hfe
        have hp2 : p.2 = calculateScale ((now - e.2.startTime) / e.2.duration)
            e.2.peakScale := (congrArg Prod.snd hfe).symm
        rw [hp2]
        unfold calculateScale
        set x : ℝ := (((now - e.2.startTime) / e.2.duration : ℚ) : ℝ) with hx
        have hx0 : 0 ≤ x := by
          rw [hx]
          have : (0 : ℚ) ≤ (now - e.2.startTime) / e.2.duration :=
            div_nonneg (not_lt.mp h1) (le_of_lt hdpos)
          exact_mod_cast this
        have hx1 : x ≤ 1 := by
          rw [hx]
          have : (now - e.2.startTime) / e.2.duration ≤ (1 : ℚ) :=
            le_of_lt ((div_lt_one hdpos).mpr (lt_of_not_le h2))
          exact_mod_cast this
        have hsin0 : 0 ≤ Real.sin (x * Real.pi) := by
          apply Real.sin_nonneg_of_nonneg_of_le_pi
          · exact mul_nonneg hx0 (le_of_lt Real.pi_pos)
          · calc x * Real.pi ≤ 1 * Real.pi :=
                mul_le_mul_of_nonneg_right hx1 (le_of_lt Real.pi_pos)
            _ = Real.pi := one_mul _
        have hsin1 : Real.sin (x * Real.pi) ≤ 1 := Real.sin_le_one _
        have hpk1' : ((3 / 2 : ℚ) : ℝ) ≤ (e.2.peakScale : ℝ) := by exact_mod_cast hpk1
        have h32 : ((3 / 2 : ℚ) : ℝ) = 3 / 2 := by norm_num
        rw [h32] at hpk1'
        have hpk2' : ((e.2.peakScale : ℝ)) ≤ 2 := by exact_mod_cast hpk2
        constructor
        · nlinarith
        · nlinarith

/-- Witness for C10: one start on a fresh manager (cap 30, full-strength
beat), advanced to the midpoint of its 400 ms duration. -/
theorem updatePulsations_scale_bounds_witness :
    (1 : ℝ) ≤ calculateScale (1 / 2) 2 ∧ calculateScale (1 / 2) 2 ≤ 2 := by
  have h := (updatePulsations_scale_bounds 30 (startPulsation 30 [] "a" 1 3 0) 200
    (Reachable.start [] "a" 1 3 0 Reachable.init)).2
  have hm : startPulsation 30 [] "a" 1 3 0 =
      [("a", PulsationState.mk "a" 0 400 2 3)] := by
    unfold startPulsation
    norm_num [List.lookup]
  have hmem : ("a", calculateScale (1 / 2) 2) ∈
      updatePulsations (startPulsation 30 [] "a" 1 3 0) 200 := by
    rw [hm]
    unfold updatePulsations
    rw [List.filterMap_cons]
    norm_num
  exact h _ hmem

theorem updateHistory_stats (H : ℕ) (st : BeatState) (e : ℚ) :
    (updateHistory H st e).averageEnergy = listMean (updateHistory H st e).energyHistory ∧
    (updateHistory H st e).varianceEnergy = listStddev (updateHistory H st e).energyHistory := by
  constructor
  · unfold updateHistory listMean
    simp only [foldl_add_eq_sum, zero_add]
  · unfold updateHistory listStddev listMean
    simp only [foldl_add_eq_sum, foldl_add_map_eq_sum, zero_add, pow_two]

theorem updateHistory_length (H : ℕ) (st : BeatState) (e : ℚ)
    (h : st.energyHistory.length ≤ H) :
    (updateHistory H st e).energyHistory.length ≤ H := by
  unfold updateHistory
  simp only
  split_ifs with hlen
  · simp only [List.length_tail, List.length_append, List.length_cons, List.length_nil]
    omega
  · simp only [List.length_append, List.length_cons, List.length_nil] at hlen ⊢
    omega

theorem detectBeat_snd_fields (H : ℕ) (tm d : ℚ) (st : BeatState)
    (freq : List ℕ) (t : ℚ) :
    (detectBeat H tm d st freq t).2.energyHistory =
      (updateHistory H st (calculateEnergy freq)).energyHistory ∧
    (detectBeat H tm d st freq t).2.averageEnergy =
      (updateHistory H st (calculateEnergy freq)).averageEnergy ∧
    (detectBeat H tm d st freq t).2.varianceEnergy =
      (updateHistory H st (calculateEnergy freq)).varianceEnergy := by
  unfold detectBeat
  dsimp only
  split_ifs <;> exact ⟨rfl, rfl, rfl⟩

/-- C9: after every `detectBeat` call on a state whose history is within
capacity, the history length is still at most `historySize`, and the
stored average and deviation equal the mean and standard deviation of the
current (post-eviction) history; the same holds for the reset state. -/
theorem detectBeat_state_invariant (H : ℕ) (tm d : ℚ) (st : BeatState)
    (freq : List ℕ) (t : ℚ) :
    (st.energyHistory.length ≤ H →
      (detectBeat H tm d st freq t).2.energyHistory.length ≤ H) ∧
    (detectBeat H tm d st freq t).2.averageEnergy =
      listMean (detectBeat H tm d st freq t).2.energyHistory ∧
    (detectBeat H tm d st freq t).2.varianceEnergy =
      listStddev (detectBeat H tm d st freq t).2.energyHistory ∧
    (resetState.energyHistory.length ≤ H ∧
      resetState.averageEnergy = listMean resetState.energyHistory ∧
      resetState.varianceEnergy = listStddev resetState.energyHistory) := by
  obtain ⟨hh, ha, hv⟩ := detectBeat_snd_fields H tm d st freq t
  obtain ⟨hm, hs⟩ := updateHistory_stats H st (calculateEnergy freq)
  refine ⟨?_, ?_, ?_, ?_, ?_, ?_⟩
  · intro hlen
    rw [hh]
    exact updateHistory_length H st (calculateEnergy freq) hlen
  · rw [ha, hh, hm]
  · rw [hv, hh, hs]
  · exact Nat.zero_le H
  · simp [resetState, listMean]
  · simp [resetState, listStddev, Real.sqrt_zero]

/-- Witness for C9 starting from the fresh state with the default
configuration and a concrete snapshot. -/
theorem detectBeat_state_invariant_witness :
    (detectBeat 60 (13 / 10) 100 resetState [255] 0).2.energyHistory.length ≤ 60 :=
  (detectBeat_state_invariant 60 (13 / 10) 100 resetState [255] 0).1 (Nat.zero_le 60)

/-- C7: whenever `detectBeat` emits, the strength is
`min(1, (energy - threshold) / threshold)` for the dynamic threshold
`mean * thresholdMultiplier + stddev * 0.5` computed over the
post-insertion history, `lastBeatTime` is set to the call's timestamp, and
(for a positive threshold multiplier, e.g. the default 1.3) the strength
lies in `[0, 1]`. -/
theorem detectBeat_emit_spec (H : ℕ) (tm d : ℚ) (st : BeatState)
    (freq : List ℕ) (t : ℚ) (v : ℝ)
    (hv : (detectBeat H tm d st freq t).1 = some v) :
    v = min 1 (((calculateEnergy freq : ℝ) -
        ((listMean (updateHistory H st (calculateEnergy freq)).energyHistory : ℝ) * (tm : ℝ) +
          listStddev (updateHistory H st (calculateEnergy freq)).energyHistory * (1 / 2))) /
        ((listMean (updateHistory H st (calculateEnergy freq)).energyHistory : ℝ) * (tm : ℝ) +
          listStddev (updateHistory H st (calculateEnergy freq)).energyHistory * (1 / 2))) ∧
    (detectBeat H tm d st freq t).2.lastBeatTime = t ∧
    (0 < tm → 0 ≤ v ∧ v ≤ 1) := by
  have hstats := updateHistory_stats H st (calculateEnergy freq)
  revert hv
  unfold detectBeat
  dsimp only
  split_ifs with hdeb hcond
  · intro hv
    exact absurd hv (by simp)
  · intro hv
    rw [Option.some_inj] at hv
    obtain ⟨hgt, havg⟩ := hcond
    have hvar0 : 0 ≤ (updateHistory H st (calculateEnergy freq)).varianceEnergy := by
      rw [hstats.2]
      exact Real.sqrt_nonneg _
    refine ⟨?_, rfl, ?_⟩
    · rw [← hstats.1, ← hstats.2]
      exact hv.symm
    · intro htm
      have havg' : (0 : ℝ) < ((updateHistory H st (calculateEnergy freq)).averageEnergy : ℝ) :=
        by exact_mod_cast havg
      have htm' : (0 : ℝ) < (tm : ℝ) := by exact_mod_cast htm
      have hth : 0 < ((updateHistory H st (calculateEnergy freq)).averageEnergy : ℝ) * (tm : ℝ) +
          (updateHistory H st (calculateEnergy freq)).varianceEnergy * (1 / 2) := by
        have h1 : 0 < ((updateHistory H st (calculateEnergy freq)).averageEnergy : ℝ) * (tm : ℝ) :=
          mul_pos havg' htm'
        nlinarith
      have hx : 0 < ((calculateEnergy freq : ℝ) -
          (((updateHistory H st (calculateEnergy freq)).averageEnergy : ℝ) * (tm : ℝ) +
            (updateHistory H st (calculateEnergy freq)).varianceEnergy * (1 / 2))) /
          (((updateHistory H st (calculateEnergy freq)).averageEnergy : ℝ) * (tm : ℝ) +
            (updateHistory H st (calculateEnergy freq)).varianceEnergy * (1 / 2)) := by
        apply div_pos _ hth
        simp only [gt_iff_lt] at hgt
        linarith
      constructor
      · rw [← hv]
        exact le_min (by norm_num) (le_of_lt hx)
      · rw [← hv]
        exact min_le_left _ _
  · intro hv
    exact absurd hv (by simp)

theorem detectBeat_last_of_emit (H : ℕ) (tm d : ℚ) (st : BeatState)
    (freq : List ℕ) (t : ℚ) (h : (detectBeat H tm d st freq t).1.isSome) :
    (detectBeat H tm d st freq t).2.lastBeatTime = t := by
  revert h
  unfold detectBeat
  dsimp only
  split_ifs
  · intro h
    exact absurd h (by simp)
  · intro _
    rfl
  · intro h
    exact absurd h (by simp)

theorem detectBeat_last_mono (H : ℕ) (tm d : ℚ) (st : BeatState)
    (freq : List ℕ) (t : ℚ) (hd : 0 ≤ d) :
    st.lastBeatTime ≤ (detectBeat H tm d st freq t).2.lastBeatTime := by
  unfold detectBeat
  dsimp only
  split_ifs with hdeb hcond
  · rw [updateHistory_lastBeatTime]
  · rw [updateHistory_lastBeatTime] at hdeb
    dsimp only
    linarith [not_lt.mp hdeb]
  · rw [updateHistory_lastBeatTime]

theorem detectBeat_emit_ge (H : ℕ) (tm d : ℚ) (st : BeatState)
    (freq : List ℕ) (t : ℚ) (h : (detectBeat H tm d st freq t).1.isSome) :
    st.lastBeatTime + d ≤ t := by
  revert h
  unfold detectBeat
  dsimp only
  split_ifs with hdeb hcond
  · intro h
    exact absurd h (by simp)
  · intro _
    rw [updateHistory_lastBeatTime] at hdeb
    linarith [not_lt.mp hdeb]
  · intro h
    exact absurd h (by simp)

theorem runDetector_emit_ge (H : ℕ) (tm d : ℚ) (hd : 0 ≤ d) :
    ∀ (calls : List (List ℕ × ℚ)) (st0 : BeatState) (i : ℕ) (v : ℝ) (t' : ℚ),
      (runDetector H tm d st0 calls)[i]? = some (some v, t') →
      st0.lastBeatTime + d ≤ t'
  | [], st0, i, v, t' => by
    intro h
    simp [runDetector] at h
  | (f, t) :: rest, st0, 0, v, t' => by
    intro h
    simp only [runDetector, List.getElem?_cons_zero, Option.some.injEq] at h
    obtain ⟨h1, h2⟩ := Prod.mk.injEq _ _ _ _ ▸ h
    subst h2
    exact detectBeat_emit_ge H tm d st0 f t (by rw [h1]; rfl)
  | (f, t) :: rest, st0, i + 1, v, t' => by
    intro h
    simp only [runDetector, List.getElem?_cons_succ] at h
    have ih := runDetector_emit_ge H tm d hd rest
      (detectBeat H tm d st0 f t).2 i v t' h
    have mono := detectBeat_last_mono H tm d st0 f t hd
    linarith

theorem runDetector_pair_ge (H : ℕ) (tm d : ℚ) (hd : 0 ≤ d) :
    ∀ (calls : List (List ℕ × ℚ)) (st0 : BeatState) (i j : ℕ)
      (vi vj : ℝ) (ti tj : ℚ), i < j →
      (runDetector H tm d st0 calls)[i]? = some (some vi, ti) →
      (runDetector H tm d st0 calls)[j]? = some (some vj, tj) →
      ti + d ≤ tj
  | [], st0, i, j, vi, vj, ti, tj => by
    intro _ hi _
    simp [runDetector] at hi
  | (f, t) :: rest, st0, 0, j, vi, vj, ti, tj => by
    intro hij hi hj
    obtain ⟨j', rfl⟩ : ∃ j', j = j' + 1 := ⟨j - 1, by omega⟩
    simp only [runDetector, List.getElem?_cons_zero, Option.some.injEq] at hi
    simp only [runDetector, List.getElem?_cons_succ] at hj
    obtain ⟨h1, h2⟩ := Prod.mk.injEq _ _ _ _ ▸ hi
    subst h2
    have hsome : (detectBeat H tm d st0 f t).1.isSome := by rw [h1]; rfl
    have hlast := detectBeat_last_of_emit H tm d st0 f t hsome
    have := runDetector_emit_ge H tm d hd rest
      (detectBeat H tm d st0 f t).2 j' vj tj hj
    rw [hlast] at this
    exact this
  | (f, t) :: rest, st0, i + 1, j, vi, vj, ti, tj => by
    intro hij hi hj
    obtain ⟨j', rfl⟩ : ∃ j', j = j' + 1 := ⟨j - 1, by omega⟩
    simp only [runDetector, List.getElem?_cons_succ] at hi hj
    exact runDetector_pair_ge H tm d hd rest
      (detectBeat H tm d st0 f t).2 i j' vi vj ti tj (by omega) hi hj

/-- C3: over any sequence of `detectBeat` calls with no intervening reset,
two emitting calls at timestamps `t1 < t2` are at least `debounceMs` apart
(for a nonnegative debounce, e.g. the default 100 ms); moreover a call
inside the debounce window returns `null` and leaves every state field
except the energy history and its derived statistics unchanged — in
particular `lastBeatTime` is untouched. -/
theorem detectBeat_debounce_spec (H : ℕ) (tm d : ℚ) (hd : 0 ≤ d) :
    (∀ (st0 : BeatState) (calls : List (List ℕ × ℚ)) (i j : ℕ)
      (vi vj : ℝ) (ti tj : ℚ),
      (runDetector H tm d st0 calls)[i]? = some (some vi, ti) →
      (runDetector H tm d st0 calls)[j]? = some (some vj, tj) →
      ti < tj → d ≤ tj - ti) ∧
    (∀ (st : BeatState) (freq : List ℕ) (t : ℚ),
      t - st.lastBeatTime < d →
      detectBeat H tm d st freq t = (none, updateHistory H st (calculateEnergy freq)) ∧
      (updateHistory H st (calculateEnergy freq)).lastBeatTime = st.lastBeatTime) := by
  constructor
  · intro st0 calls i j vi vj ti tj hi hj hlt
    rcases lt_trichotomy i j with hij | rfl | hji
    · have := runDetector_pair_ge H tm d hd calls st0 i j vi vj ti tj hij hi hj
      linarith
    · rw [hi] at hj
      simp only [Option.some.injEq, Prod.mk.injEq] at hj
      exact absurd (hj.2 ▸ hlt) (lt_irrefl _)
    · have := runDetector_pair_ge H tm d hd calls st0 j i vj vi tj ti hji hj hi
      linarith
  · intro st freq t hdeb
    constructor
    · unfold detectBeat
      dsimp only
      rw [if_pos (by rw [updateHistory_lastBeatTime]; exact hdeb)]
    · exact updateHistory_lastBeatTime H st (calculateEnergy freq)

theorem updateHistory_concrete :
    updateHistory 2 (BeatState.mk [0] 0 0 0) 1 = BeatState.mk [0, 1] 0 (1 / 2) (1 / 2) := by
  unfold updateHistory
  norm_num [List.foldl]
  rw [show (4 : ℝ) = 2 ^ 2 by norm_num, Real.sqrt_sq (by norm_num : (0 : ℝ) ≤ 2)]
  norm_num

theorem calculateEnergy_255 : calculateEnergy [255] = 1 := by
  unfold calculateEnergy
  norm_num

theorem calculateEnergy_0 : calculateEnergy [0] = 0 := by
  unfold calculateEnergy
  norm_num

theorem detectBeat_concrete_beat :
    (detectBeat 2 (13 / 10) 100 (BeatState.mk [0] 0 0 0) [255] 200).1 =
      some ((1 : ℝ) / 9) := by
  unfold detectBeat
  rw [calculateEnergy_255]
  dsimp only
  rw [updateHistory_concrete]
  dsimp only
  rw [if_neg (by norm_num)]
  rw [if_pos (by constructor <;> norm_num)]
  norm_num

theorem updateHistory_concreteB :
    updateHistory 2 (BeatState.mk [0, 1] 200 (1 / 2) (1 / 2)) 0 =
      BeatState.mk [1, 0] 200 (1 / 2) (1 / 2) := by
  unfold updateHistory
  norm_num [List.foldl]
  rw [show (4 : ℝ) = 2 ^ 2 by norm_num, Real.sqrt_sq (by norm_num : (0 : ℝ) ≤ 2)]
  norm_num

theorem updateHistory_concreteC :
    updateHistory 2 (BeatState.mk [1, 0] 200 (1 / 2) (1 / 2)) 1 =
      BeatState.mk [0, 1] 200 (1 / 2) (1 / 2) := by
  unfold updateHistory
  norm_num [List.foldl]
  rw [show (4 : ℝ) = 2 ^ 2 by norm_num, Real.sqrt_sq (by norm_num : (0 : ℝ) ≤ 2)]
  norm_num

theorem detectBeat_step1 :
    detectBeat 2 (13 / 10) 100 resetState [0] 0 = (none, BeatState.mk [0] 0 0 0) := by
  unfold detectBeat
  rw [calculateEnergy_0]
  dsimp only
  rw [updateHistory_reset_pos 2 0 (by norm_num)]
  dsimp only
  rw [if_pos (by norm_num)]

theorem detectBeat_step2 :
    detectBeat 2 (13 / 10) 100 (BeatState.mk [0] 0 0 0) [255] 200 =
      (some ((1 : ℝ) / 9), BeatState.mk [0, 1] 200 (1 / 2) (1 / 2)) := by
  unfold detectBeat
  rw [calculateEnergy_255]
  dsimp only
  rw [updateHistory_concrete]
  dsimp only
  rw [if_neg (by norm_num)]
  rw [if_pos (by constructor <;> norm_num)]
  norm_num

theorem detectBeat_step3 :
    detectBeat 2 (13 / 10) 100 (BeatState.mk [0, 1] 200 (1 / 2) (1 / 2)) [0] 250 =
      (none, BeatState.mk [1, 0] 200 (1 / 2) (1 / 2)) := by
  unfold detectBeat
  rw [calculateEnergy_0]
  dsimp only
  rw [updateHistory_concreteB]
  dsimp only
  rw [if_pos (by norm_num)]

theorem detectBeat_step4 :
    detectBeat 2 (13 / 10) 100 (BeatState.mk [1, 0] 200 (1 / 2) (1 / 2)) [255] 350 =
      (some ((1 : ℝ) / 9), BeatState.mk [0, 1] 350 (1 / 2) (1 / 2)) := by
  unfold detectBeat
  rw [calculateEnergy_255]
  dsimp only
  rw [updateHistory_concreteC]
  dsimp only
  rw [if_neg (by norm_num)]
  rw [if_pos (by constructor <;> norm_num)]
  norm_num

theorem runDetector_concrete :
    runDetector 2 (13 / 10) 100 resetState
      [([0], 0), ([255], 200), ([0], 250), ([255], 350)] =
      [(none, 0), (some ((1 : ℝ) / 9), 200), (none, 250), (some ((1 : ℝ) / 9), 350)] := by
  simp only [runDetector, detectBeat_step1, detectBeat_step2, detectBeat_step3,
    detectBeat_step4]

/-- Witness for C3: a concrete run whose second and fourth calls emit, at
timestamps 200 and 350, which are at least the 100 ms debounce apart. -/
theorem detectBeat_debounce_spec_witness :
    (runDetector 2 (13 / 10) 100 resetState
      [([0], 0), ([255], 200), ([0], 250), ([255], 350)])[1]? =
        some (some ((1 : ℝ) / 9), 200) ∧
    (runDetector 2 (13 / 10) 100 resetState
      [([0], 0), ([255], 200), ([0], 250), ([255], 350)])[3]? =
        some (some ((1 : ℝ) / 9), 350) ∧
    (100 : ℚ) ≤ 350 - 200 := by
  have h1 : (runDetector 2 (13 / 10) 100 resetState
      [([0], 0), ([255], 200), ([0], 250), ([255], 350)])[1]? =
        some (some ((1 : ℝ) / 9), 200) := by
    rw [runDetector_concrete]
    rfl
  have h3 : (runDetector 2 (13 / 10) 100 resetState
      [([0], 0), ([255], 200), ([0], 250), ([255], 350)])[3]? =
        some (some ((1 : ℝ) / 9), 350) := by
    rw [runDetector_concrete]
    rfl
  exact ⟨h1, h3, (detectBeat_debounce_spec 2 (13 / 10) 100 (by norm_num)).1 resetState
    [([0], 0), ([255], 200), ([0], 250), ([255], 350)] 1 3 ((1 : ℝ) / 9) ((1 : ℝ) / 9)
    200 350 h1 h3 (by norm_num)⟩

/-- Witness for C7 at a concrete emitting call: pre-state history `[0]`,
snapshot `[255]`, timestamp 200; the emitted strength is `1/9` and
`lastBeatTime` becomes 200. -/
theorem detectBeat_emit_spec_witness :
    (detectBeat 2 (13 / 10) 100 (BeatState.mk [0] 0 0 0) [255] 200).2.lastBeatTime = 200 ∧
    (0 : ℝ) ≤ (1 : ℝ) / 9 ∧ ((1 : ℝ) / 9) ≤ 1 := by
  have h := detectBeat_emit_spec 2 (13 / 10) 100 (BeatState.mk [0] 0 0 0) [255] 200
    ((1 : ℝ) / 9) detectBeat_concrete_beat
  exact ⟨h.2.1, h.2.2 (by norm_num)⟩

theorem pickIndexAux_bound (r : ℚ) :
    ∀ (ws : List ℚ) (j0 : ℕ) (c : ℚ) (j : ℕ),
      pickIndexAux r ws j0 c = some j → j < j0 + ws.length
  | [], j0, c, j => by simp [pickIndexAux]
  | w :: ws, j0, c, j => by
    intro h
    simp only [pickIndexAux] at h
    split_ifs at h with hr
    · obtain rfl : j0 = j := by simpa using h
      simp only [List.length_cons]
      omega
    · have := pickIndexAux_bound r ws (j0 + 1) (c + w) j h
      simp only [List.length_cons]
      omega

theorem pickIndex_lt (ws : List ℚ) (r : ℚ) (hne : ws ≠ []) :
    pickIndex ws r < ws.length := by
  unfold pickIndex
  cases h : pickIndexAux r ws 0 0 with
  | none => simpa using List.length_pos.mpr hne
  | some j => simpa using pickIndexAux_bound r ws 0 0 j h

theorem getD_cons_eraseIdx_perm {α : Type} (d : α) :
    ∀ (l : List α) (i : ℕ), i < l.length → (l.getD i d :: l.eraseIdx i).Perm l
  | [], i, h => by simp at h
  | a :: tl, 0, h => by simp
  | a :: tl, i + 1, h => by
    have hlt : i < tl.length := by
      simpa using Nat.lt_of_succ_lt_succ h
    have ih := getD_cons_eraseIdx_perm d tl i hlt
    simp only [List.getD_cons_succ, List.eraseIdx_cons_succ]
    exact (List.Perm.swap a (tl.getD i d) (tl.eraseIdx i)).trans (ih.cons a)

theorem sampleLoop_length (rand : ℕ → ℚ) :
    ∀ (k i : ℕ) (avail : List Particle) (ws : List ℚ),
      ws.length = avail.length →
      (sampleLoop rand i k avail ws).length = min k avail.length
  | 0, i, avail, ws, h => by simp [sampleLoop]
  | k + 1, i, [], ws, h => by simp [sampleLoop]
  | k + 1, i, a :: avail, ws, h => by
    have hne : ws ≠ [] := by
      intro hc
      rw [hc] at h
      simp at h
    have hidx : pickIndex ws (rand i * ws.foldl (· + ·) 0) < ws.length :=
      pickIndex_lt ws _ hne
    have hidx' : pickIndex ws (rand i * ws.foldl (· + ·) 0) < (a :: avail).length :=
      h ▸ hidx
    have he1 : (((a :: avail).eraseIdx
        (pickIndex ws (rand i * ws.foldl (· + ·) 0))).length) + 1 =
        (a :: avail).length := List.length_eraseIdx_add_one hidx'
    have he2 : ((ws.eraseIdx (pickIndex ws (rand i * ws.foldl (· + ·) 0))).length) + 1 =
        ws.length := List.length_eraseIdx_add_one hidx
    have hlen : (ws.eraseIdx (pickIndex ws (rand i * ws.foldl (· + ·) 0))).length =
        ((a :: avail).eraseIdx (pickIndex ws (rand i * ws.foldl (· + ·) 0))).length := by
      omega
    simp only [sampleLoop, List.length_cons]
    rw [sampleLoop_length rand k (i + 1) _ _ hlen]
    simp only [List.length_cons] at he1
    omega

theorem sampleLoop_perm (rand : ℕ → ℚ) :
    ∀ (k i : ℕ) (avail : List Particle) (ws : List ℚ),
      ws.length = avail.length →
      ∃ rest, ((sampleLoop rand i k avail ws) ++ rest).Perm avail
  | 0, i, avail, ws, h => ⟨avail, by simp [sampleLoop]⟩
  | k + 1, i, [], ws, h => ⟨[], by simp [sampleLoop]⟩
  | k + 1, i, a :: avail, ws, h => by
    have hne : ws ≠ [] := by
      intro hc
      rw [hc] at h
      simp at h
    have hidx : pickIndex ws (rand i * ws.foldl (· + ·) 0) < ws.length :=
      pickIndex_lt ws _ hne
    have hidx' : pickIndex ws (rand i * ws.foldl (· + ·) 0) < (a :: avail).length :=
      h ▸ hidx
    have he1 := List.length_eraseIdx_add_one hidx'
    have he2 := List.length_eraseIdx_add_one hidx
    have hlen : (ws.eraseIdx (pickIndex ws (rand i * ws.foldl (· + ·) 0))).length =
        ((a :: avail).eraseIdx (pickIndex ws (rand i * ws.foldl (· + ·) 0))).length := by
      omega
    obtain ⟨rest, hrest⟩ := sampleLoop_perm rand k (i + 1)
      ((a :: avail).eraseIdx (pickIndex ws (rand i * ws.foldl (· + ·) 0)))
      (ws.eraseIdx (pickIndex ws (rand i * ws.foldl (· + ·) 0))) hlen
    refine ⟨rest, ?_⟩
    simp only [sampleLoop, List.cons_append]
    exact (hrest.cons _).trans (getD_cons_eraseIdx_perm a _ _ hidx')

/-- The selection count computed by `selectStars`:
`max(1, floor(n * fraction))` with the fraction interpolated between the
configured minimum and maximum by the clamped beat strength. -/
def selectionCountOf (particles : List Particle) (beatStrength : ℚ)
    (config : StarSelectionConfig) : ℕ :=
  (max 1 ⌊(particles.length : ℚ) * (config.minSelectionPercent +
    (config.maxSelectionPercent - config.minSelectionPercent) *
      max 0 (min 1 beatStrength))⌋).toNat

theorem selectStars_eq_branches (particles : List Particle) (beatStrength : ℚ)
    (config : StarSelectionConfig) (rand : ℕ → ℚ)
    (shuffle : List Particle → List Particle) (hne : particles ≠ []) :
    selectStars particles beatStrength config rand shuffle =
      if (particles.map (fun p => calculateWeight p config.sizeWeightExponent)).foldl
          (· + ·) 0 = 0 then
        selectUniformRandom particles (selectionCountOf particles beatStrength config) shuffle
      else
        sampleLoop rand 0 (selectionCountOf particles beatStrength config) particles
          (particles.map (fun p => calculateWeight p config.sizeWeightExponent)) := by
  unfold selectStars selectionCountOf
  rw [if_neg (by simpa using hne)]

theorem selectionCountOf_pos (particles : List Particle) (beatStrength : ℚ)
    (config : StarSelectionConfig) : 1 ≤ selectionCountOf particles beatStrength config := by
  unfold selectionCountOf
  omega

theorem selectStars_length (particles : List Particle) (beatStrength : ℚ)
    (config : StarSelectionConfig) (rand : ℕ → ℚ)
    (shuffle : List Particle → List Particle)
    (hsh : ∀ l, (shuffle l).Perm l) (hne : particles ≠ []) :
    (selectStars particles beatStrength config rand shuffle).length =
      min (selectionCountOf particles beatStrength config) particles.length := by
  rw [selectStars_eq_branches particles beatStrength config rand shuffle hne]
  split_ifs with hw
  · unfold selectUniformRandom
    rw [List.length_take, (hsh particles).length_eq]
    omega
  · rw [sampleLoop_length rand _ 0 particles _ (by simp)]

theorem selectStars_perm (particles : List Particle) (beatStrength : ℚ)
    (config : StarSelectionConfig) (rand : ℕ → ℚ)
    (shuffle : List Particle → List Particle) (hsh : ∀ l, (shuffle l).Perm l) :
    ∃ rest, ((selectStars particles beatStrength config rand shuffle) ++ rest).Perm
      particles := by
  rcases eq_or_ne particles [] with rfl | hne
  · exact ⟨[], by simp [selectStars]⟩
  · rw [selectStars_eq_branches particles beatStrength config rand shuffle hne]
    split_ifs with hw
    · refine ⟨(shuffle particles).drop (min (selectionCountOf particles beatStrength config)
        particles.length), ?_⟩
      unfold selectUniformRandom
      rw [List.take_append_drop]
      exact hsh particles
    · exact sampleLoop_perm rand _ 0 particles _ (by simp)

/-- C5: for every outcome of the random source (`rand` draws and the
fallback `shuffle`, which permutes its input): `selectStars` maps the empty
list to the empty list; on a nonempty list it returns exactly
`min(max(1, floor(n * fraction)), n)` particles, with the fraction
interpolated between the configured minimum and maximum by the clamped
beat strength; it never returns duplicate ids (for distinct-id input),
never more particles than supplied, and on a single-particle input returns
exactly that particle. -/
theorem selectStars_spec (beatStrength : ℚ) (config : StarSelectionConfig)
    (rand : ℕ → ℚ) (shuffle : List Particle → List Particle)
    (hsh : ∀ l, (shuffle l).Perm l) :
    selectStars [] beatStrength config rand shuffle = [] ∧
    (∀ particles : List Particle, particles ≠ [] →
      (selectStars particles beatStrength config rand shuffle).length =
        min ((max 1 ⌊(particles.length : ℚ) * (config.minSelectionPercent +
          (config.maxSelectionPercent - config.minSelectionPercent) *
            max 0 (min 1 beatStrength))⌋).toNat) particles.length) ∧
    (∀ particles : List Particle, (particles.map Particle.id).Nodup →
      ((selectStars particles beatStrength config rand shuffle).map Particle.id).Nodup) ∧
    (∀ particles : List Particle,
      (selectStars particles beatStrength config rand shuffle).length ≤
        particles.length) ∧
    (∀ p : Particle, selectStars [p] beatStrength config rand shuffle = [p]) := by
  refine ⟨rfl, ?_, ?_, ?_, ?_⟩
  · intro particles hne
    exact selectStars_length particles beatStrength config rand shuffle hsh hne
  · intro particles hnd
    obtain ⟨rest, hp⟩ := selectStars_perm particles beatStrength config rand shuffle hsh
    have hmap := hp.map Particle.id
    rw [List.map_append] at hmap
    have hall : ((selectStars particles beatStrength config rand shuffle).map Particle.id
        ++ rest.map Particle.id).Nodup := hmap.nodup_iff.mpr hnd
    exact hall.of_append_left
  · intro particles
    obtain ⟨rest, hp⟩ := selectStars_perm particles beatStrength config rand shuffle hsh
    have hl := hp.length_eq
    rw [List.length_append] at hl
    omega
  · intro p
    have hlen := selectStars_length [p] beatStrength config rand shuffle hsh (by simp)
    have hcnt := selectionCountOf_pos [p] beatStrength config
    obtain ⟨rest, hp⟩ := selectStars_perm [p] beatStrength config rand shuffle hsh
    have hlen1 : (selectStars [p] beatStrength config rand shuffle).length = 1 := by
      rw [hlen]
      simp only [List.length_singleton]
      omega
    have hrest : rest = [] := by
      have hl := hp.length_eq
      rw [List.length_append, hlen1] at hl
      simp only [List.length_singleton] at hl
      exact List.length_eq_zero.mp (by omega)
    subst hrest
    rw [List.append_nil] at hp
    exact List.perm_singleton.mp hp

/-- Witness for C5: the single-particle case with a concrete configuration
and random source. -/
theorem selectStars_spec_witness :
    selectStars [Particle.mk "a" 2] (1 / 2) DEFAULT_SELECTION_CONFIG
      (fun _ => 0) id = [Particle.mk "a" 2] :=
  (selectStars_spec (1 / 2) DEFAULT_SELECTION_CONFIG (fun _ => 0) id
    (fun l => List.Perm.refl l)).2.2.2.2 (Particle.mk "a" 2)

end Starfield
